import Mathlib

/-!
Verification of the core mechanisms of the node-it-glue client library:
the JSON:API case/envelope transcoder and query builder (src/jsonapi.ts),
the error classifier (src/errors.ts), the retry policy wired by the HTTP
executor (src/http.ts), and the pagination engine (src/pagination.ts).

JavaScript strings are modelled as lists of Unicode code points; JavaScript
runtime values as the inductive type `JVal`, with a distinguished `undefined`
value mirroring the undefined/null distinction.  Code that can raise a
TypeError at run time is modelled in the `Except Unit` monad.
-/

/-- A JavaScript string, as its list of code points.  Every string the
library manipulates character-wise is ASCII-ranged. -/
abbrev Str := List Nat

/-- The code points of a Lean string literal, used for concrete inputs. -/
def strOf (s : String) : Str := s.data.map Char.toNat

/-- Membership in the regex character class of lowercase ASCII letters. -/
def isLowerCode (c : Nat) : Bool := decide (97 ≤ c ∧ c ≤ 122)

/-- Membership in the class of uppercase ASCII letters. -/
def isUpperCode (c : Nat) : Bool := decide (65 ≤ c ∧ c ≤ 90)

/-- An ASCII letter, lower or upper case. -/
def isLetterCode (c : Nat) : Bool := isLowerCode c || isUpperCode c

/-- JS toLowerCase on one ASCII-ranged code point. -/
def lowerCode (c : Nat) : Nat := if isUpperCode c then c + 32 else c

/-- JS toUpperCase on one ASCII-ranged code point, as applied by the
replace callbacks in jsonapi.ts. -/
def upperCode (c : Nat) : Nat := if isLowerCode c then c - 32 else c

/-- The code point of the hyphen character. -/
def hyphenCode : Nat := 45

/-- jsonapi.ts `kebabToCamel` (lines 16-18): replace every non-overlapping
occurrence of a hyphen followed by a lowercase letter with that letter
upper-cased, scanning left to right as the global regex replace does. -/
def kebabToCamel : Str → Str
  | [] => []
  | [c] => [c]
  | a :: b :: rest =>
    if a = hyphenCode && isLowerCode b then upperCode b :: kebabToCamel rest
    else a :: kebabToCamel (b :: rest)

/-- The scanning pass of jsonapi.ts `camelToKebab` (lines 23-25): insert a
hyphen between every non-overlapping lowercase-uppercase pair, scanning
left to right; the match consumes both characters, as the global regex
replace does. -/
def camelScan : Str → Str
  | [] => []
  | [c] => [c]
  | a :: b :: rest =>
    if isLowerCode a && isUpperCode b then a :: hyphenCode :: b :: camelScan rest
    else a :: camelScan (b :: rest)

/-- jsonapi.ts `camelToKebab`: the scanning pass followed by toLowerCase
over the whole string. -/
def camelToKebab (s : Str) : Str := (camelScan s).map lowerCode

/-- No two adjacent uppercase letters anywhere in the string. -/
def noAdjacentUppers : Str → Bool
  | a :: b :: rest => !(isUpperCode a && isUpperCode b) && noAdjacentUppers (b :: rest)
  | _ => true

/-- A key made of lowercase words joined by capitalization, in the sense of
the specification: nonempty, all ASCII letters, starting lowercase, and
with no run of two or more capitals. -/
def isSingleCapCamelKey (s : Str) : Bool :=
  match s with
  | [] => false
  | c :: _ => isLowerCode c && s.all isLetterCode && noAdjacentUppers s

theorem lowerCode_of_lower {c : Nat} (h : isLowerCode c = true) : lowerCode c = c := by
  simp [isLowerCode] at h
  simp [lowerCode, isUpperCode]
  omega

theorem lowerCode_of_upper {c : Nat} (h : isUpperCode c = true) : lowerCode c = c + 32 := by
  simp [isUpperCode] at h
  simp [lowerCode, isUpperCode]
  omega

theorem upperCode_lowered {c : Nat} (h : isUpperCode c = true) : upperCode (c + 32) = c := by
  simp [isUpperCode] at h
  simp [upperCode, isLowerCode]
  omega

theorem isLowerCode_lowered {c : Nat} (h : isUpperCode c = true) : isLowerCode (c + 32) = true := by
  simp [isUpperCode] at h
  simp [isLowerCode]
  omega

theorem lower_ne_hyphen {c : Nat} (h : isLowerCode c = true) : c ≠ hyphenCode := by
  simp [isLowerCode] at h
  simp [hyphenCode]
  omega

theorem lower_of_letter_not_upper {c : Nat} (hl : isLetterCode c = true)
    (hu : isUpperCode c = false) : isLowerCode c = true := by
  simp [isLetterCode] at hl
  rcases hl with h | h
  · exact h
  · rw [h] at hu
    exact absurd hu (by simp)

theorem noAdjacentUppers_tail {a : Nat} {l : Str}
    (h : noAdjacentUppers (a :: l) = true) : noAdjacentUppers l = true := by
  match l with
  | [] => rfl
  | b :: rest =>
    simp [noAdjacentUppers] at h
    simp [noAdjacentUppers, h.2]

theorem kebabToCamel_cons_ne {a : Nat} (l : Str) (h : a ≠ hyphenCode) :
    kebabToCamel (a :: l) = a :: kebabToCamel l := by
  match l with
  | [] => rfl
  | b :: rest => simp [kebabToCamel, h]

theorem lowerCode_hyphen : lowerCode hyphenCode = hyphenCode := by decide

/-- The inductive heart of the round-trip property: on a key that is all
letters, starts lowercase (when nonempty) and has no adjacent capitals,
converting to the wire convention and back is the identity. -/
theorem kebab_camel_aux :
    ∀ n s, List.length s ≤ n → (∀ x ∈ s, isLetterCode x = true) →
      noAdjacentUppers s = true → (∀ c t, s = c :: t → isLowerCode c = true) →
      kebabToCamel (camelToKebab s) = s := by
  intro n
  induction n with
  | zero =>
    intro s hlen _ _ _
    have : s = [] := List.length_eq_zero.mp (Nat.le_zero.mp hlen)
    subst this
    rfl
  | succ n ih =>
    intro s hlen hall hadj hfirst
    match s with
    | [] => rfl
    | [a] =>
      have ha : isLowerCode a = true := hfirst a [] rfl
      simp [camelToKebab, camelScan, kebabToCamel, lowerCode_of_lower ha]
    | a :: b :: rest =>
      have ha : isLowerCode a = true := hfirst a (b :: rest) rfl
      have hblet : isLetterCode b = true := hall b (by simp)
      have hrestall : ∀ x ∈ rest, isLetterCode x = true := by
        intro x hx
        exact hall x (by simp [hx])
      have hadjtail : noAdjacentUppers (b :: rest) = true := noAdjacentUppers_tail hadj
      by_cases hb : isUpperCode b = true
      · -- a lowercase-uppercase boundary: the scan inserts a hyphen here
        have hscan : camelScan (a :: b :: rest) = a :: hyphenCode :: b :: camelScan rest := by
          simp [camelScan, ha, hb]
        have hrestfirst : ∀ c t, rest = c :: t → isLowerCode c = true := by
          intro c t hrest
          subst hrest
          simp [noAdjacentUppers, hb] at hadjtail
          exact lower_of_letter_not_upper (hrestall c (by simp))
            (by simp [hadjtail.1])
        have hrest : kebabToCamel (camelToKebab rest) = rest := by
          apply ih rest _ hrestall (noAdjacentUppers_tail hadjtail) hrestfirst
          simp at hlen
          omega
        calc kebabToCamel (camelToKebab (a :: b :: rest))
            = kebabToCamel (a :: hyphenCode :: (b + 32) ::
                (camelScan rest).map lowerCode) := by
              simp [camelToKebab, hscan, lowerCode_of_lower ha,
                lowerCode_of_upper hb, lowerCode_hyphen]
          _ = a :: kebabToCamel (hyphenCode :: (b + 32) ::
                (camelScan rest).map lowerCode) :=
              kebabToCamel_cons_ne _ (lower_ne_hyphen ha)
          _ = a :: upperCode (b + 32) :: kebabToCamel ((camelScan rest).map lowerCode) := by
              simp [kebabToCamel, isLowerCode_lowered hb]
          _ = a :: b :: rest := by
              rw [upperCode_lowered hb]
              exact congrArg _ (congrArg _ hrest)
      · -- no boundary: the scan keeps the first character and moves on
        have hb' : isUpperCode b = false := by
          cases h : isUpperCode b
          · rfl
          · exact absurd h hb
        have hblow : isLowerCode b = true := lower_of_letter_not_upper hblet hb'
        have hscan : camelScan (a :: b :: rest) = a :: camelScan (b :: rest) := by
          simp [camelScan, hb']
        have htail : kebabToCamel (camelToKebab (b :: rest)) = b :: rest := by
          apply ih (b :: rest) _ _ hadjtail
            (by intro c t h; injection h with h1 _; subst h1; exact hblow)
          · simp at hlen ⊢
            omega
          · intro x hx
            rcases List.mem_cons.mp hx with h | h
            · subst h
              exact hblet
            · exact hrestall x h
        calc kebabToCamel (camelToKebab (a :: b :: rest))
            = kebabToCamel (a :: (camelScan (b :: rest)).map lowerCode) := by
              simp [camelToKebab, hscan, lowerCode_of_lower ha]
          _ = a :: kebabToCamel ((camelScan (b :: rest)).map lowerCode) :=
              kebabToCamel_cons_ne _ (lower_ne_hyphen ha)
          _ = a :: b :: rest := congrArg _ htail

/-- C2: for every internal key made of lowercase words joined by
capitalization (single-capital camelCase), converting to the wire
convention and back is the identity:
kebabToCamel (camelToKebab k) equals k. -/
theorem c2_case_conversion_roundtrip (s : Str) (h : isSingleCapCamelKey s = true) :
    kebabToCamel (camelToKebab s) = s := by
  match s with
  | [] => simp [isSingleCapCamelKey] at h
  | c :: t =>
    simp [isSingleCapCamelKey] at h
    obtain ⟨⟨h1, h2, h3⟩, h4⟩ := h
    apply kebab_camel_aux (c :: t).length (c :: t) le_rfl _ h4
      (by intro d u hd; injection hd with hd1 _; subst hd1; exact h1)
    intro x hx
    rcases List.mem_cons.mp hx with h | h
    · subst h
      exact h2
    · exact h3 x h

theorem c2_case_conversion_roundtrip_witness :
    isSingleCapCamelKey (strOf "organizationTypeName") = true ∧
    kebabToCamel (camelToKebab (strOf "organizationTypeName")) =
      strOf "organizationTypeName" :=
  ⟨by decide, c2_case_conversion_roundtrip _ (by decide)⟩

/-- A JavaScript runtime value as the deserializer can encounter it:
the JSON values plus the distinguished undefined value.  Objects are
association lists of fields in insertion order; the wire protocol cannot
produce duplicate keys inside one object. -/
inductive JVal where
  | undefined
  | null
  | bool (b : Bool)
  | num (n : Int)
  | str (s : Str)
  | arr (elems : List JVal)
  | obj (fields : List (Str × JVal))
deriving Repr

/-- JS truthiness of a value, as used by the bare `if (x)` guards in the
source.  (NaN does not arise: the wire carries no NaN literals.) -/
def truthy : JVal → Bool
  | .undefined => false
  | .null => false
  | .bool b => b
  | .num n => decide (n ≠ 0)
  | .str s => decide (s ≠ [])
  | .arr _ => true
  | .obj _ => true

/-- Decimal numeral of a natural number, as a JS string. -/
def natToStr (n : Nat) : Str := (Nat.toDigits 10 n).map Char.toNat

/-- JS Object.entries: the own enumerable properties in order.  Objects
yield their fields, arrays and strings their indexed elements, primitives
nothing. -/
def entriesOf : JVal → List (Str × JVal)
  | .obj fields => fields
  | .arr xs => xs.enum.map (fun p => (natToStr p.1, p.2))
  | .str s => s.enum.map (fun p => (natToStr p.1, .str [p.2]))
  | _ => []

/-- JS member access `v[k]` on a receiver that is not null/undefined:
the field value, or undefined when absent.  (Indexed access into strings
and arrays is not modelled; the library never reads numeric keys.) -/
def getFieldT (v : JVal) (k : Str) : JVal :=
  match v with
  | .obj fields => (((fields.find? (fun p => p.1 == k)).map Prod.snd).getD .undefined)
  | _ => .undefined

/-- JS member access `v[k]` including the TypeError raised when the
receiver is null or undefined. -/
def getField (v : JVal) (k : Str) : Except Unit JVal :=
  match v with
  | .undefined => .error ()
  | .null => .error ()
  | v => .ok (getFieldT v k)

/-- JS object assignment `o[k] = v`: overwrite the binding in place if the
key exists, otherwise append it. -/
def objSet {α : Type} (fields : List (Str × α)) (k : Str) (v : α) : List (Str × α) :=
  match fields with
  | [] => [(k, v)]
  | kv :: rest => if kv.1 == k then (k, v) :: rest else kv :: objSet rest k v

/-- Building a fresh JS object by assigning a list of entries in order. -/
def objFromEntries {α : Type} (entries : List (Str × α)) : List (Str × α) :=
  entries.foldl (fun acc p => objSet acc p.1 p.2) []

/-- Reading a key out of a built object, for stating properties. -/
def objGet {α : Type} (fields : List (Str × α)) (k : Str) : Option α :=
  (fields.find? (fun p => p.1 == k)).map Prod.snd

/-- The JS nullish-coalescing operator `v ?? d`. -/
def jsCoalesce (v d : JVal) : JVal :=
  match v with
  | .undefined => d
  | .null => d
  | v => v

mutual

/-- jsonapi.ts `convertKeysToCamel` (lines 30-49): recursively rename
every object key from kebab-case to camelCase; arrays element-wise,
scalars unchanged. -/
def convertKeysToCamel : JVal → JVal
  | .arr xs => .arr (convertKeysToCamelList xs)
  | .obj fields => .obj (objFromEntries (convertKeysToCamelFields fields))
  | v => v

/-- The element-wise pass of `convertKeysToCamel` over an array. -/
def convertKeysToCamelList : List JVal → List JVal
  | [] => []
  | x :: xs => convertKeysToCamel x :: convertKeysToCamelList xs

/-- The entry-wise pass of `convertKeysToCamel` over an object's entries. -/
def convertKeysToCamelFields : List (Str × JVal) → List (Str × JVal)
  | [] => []
  | kv :: fs => (kebabToCamel kv.1, convertKeysToCamel kv.2) :: convertKeysToCamelFields fs

end

/-- One iteration of the entry loop of jsonapi.ts
`deserializeRelationships`: read `data` off the entry value (a TypeError
when the value is null/undefined), then bind the camelCased key to the
empty list for null data, to an array as it is, and to a one-element list
for a scalar. -/
def relStep (acc : List (Str × JVal)) (kv : Str × JVal) :
    Except Unit (List (Str × JVal)) := do
  let camelKey := kebabToCamel kv.1
  let d ← getField kv.2 (strOf "data")
  match d with
  | .null => pure (objSet acc camelKey (.arr []))
  | .arr xs => pure (objSet acc camelKey (.arr xs))
  | d => pure (objSet acc camelKey (.arr [d]))

/-- The entry loop of `deserializeRelationships`, left to right. -/
def relLoop (entries : List (Str × JVal)) (acc : List (Str × JVal)) :
    Except Unit (List (Str × JVal)) :=
  match entries with
  | [] => .ok acc
  | kv :: rest => do
      let acc' ← relStep acc kv
      relLoop rest acc'

/-- jsonapi.ts `deserializeRelationships` (lines 78-99): undefined for a
falsy input; otherwise one binding per relationship entry under the
camelCased key (later colliding keys overwrite, as JS assignment does);
undefined again when no entry was produced. -/
def deserializeRelationships (relationships : JVal) :
    Except Unit (Option (List (Str × JVal))) :=
  if !truthy relationships then .ok none
  else do
    let result ← relLoop (entriesOf relationships) []
    if result.length > 0 then pure (some result) else pure none

/-- jsonapi.ts `deserializeResource` (lines 104-126): start from id and
type, flatten the attributes (camelCasing each key and converting its
value), then attach the deserialized relationships when nonempty. -/
def deserializeResource (resource : JVal) : Except Unit (List (Str × JVal)) := do
  let idv ← getField resource (strOf "id")
  let tyv ← getField resource (strOf "type")
  let base := [(strOf "id", idv), (strOf "type", tyv)]
  let attrs ← getField resource (strOf "attributes")
  let withAttrs :=
    if truthy attrs then
      (entriesOf attrs).foldl
        (fun acc kv => objSet acc (kebabToCamel kv.1) (convertKeysToCamel kv.2)) base
    else base
  let relsRaw ← getField resource (strOf "relationships")
  let rels ← deserializeRelationships relsRaw
  match rels with
  | some r => pure (objSet withAttrs (strOf "relationships") (.obj r))
  | none => pure withAttrs

/-- The decoded pagination meta record built by jsonapi.ts
`deserializeMeta` (lines 131-145), with each field defaulted by the
nullish-coalescing operator. -/
structure DeserializedMeta where
  currentPage : JVal
  nextPage : JVal
  prevPage : JVal
  totalPages : JVal
  totalCount : JVal
deriving Repr

/-- jsonapi.ts `deserializeMeta`: undefined on falsy input, otherwise the
five wire pagination keys read with their defaults. -/
def deserializeMeta (meta : JVal) : Option DeserializedMeta :=
  if !truthy meta then none
  else some
    { currentPage := jsCoalesce (getFieldT meta (strOf "current-page")) (.num 1)
      nextPage := jsCoalesce (getFieldT meta (strOf "next-page")) .null
      prevPage := jsCoalesce (getFieldT meta (strOf "prev-page")) .null
      totalPages := jsCoalesce (getFieldT meta (strOf "total-pages")) (.num 1)
      totalCount := jsCoalesce (getFieldT meta (strOf "total-count")) (.num 0) }

/-- The raw JSON:API envelope as the deserializer receives it; absent
fields are undefined. -/
structure JsonApiResponse where
  data : JVal := .undefined
  meta : JVal := .undefined
  included : JVal := .undefined

/-- The result of jsonapi.ts `deserialize`: the flattened data (a single
object or an array of objects), the decoded meta, and the deserialized
included resources. -/
structure DeserializedResponse where
  data : JVal
  meta : Option DeserializedMeta
  included : Option (List JVal)
deriving Repr

/-- Mapping `deserializeResource` over a list of resources, left to
right, with the first TypeError propagating — the behavior of
`Array.prototype.map` with a throwing callback. -/
def mapResources (xs : List JVal) : Except Unit (List (List (Str × JVal))) :=
  match xs with
  | [] => .ok []
  | x :: rest => do
      let r ← deserializeResource x
      let rs ← mapResources rest
      pure (r :: rs)

/-- The optional-chained `response.included?.map(deserializeResource)`
inside jsonapi.ts `deserialize`: skipped for null/undefined, mapped for an
array, and a TypeError for anything else (calling `.map` on a value that
has none). -/
def deserializeIncluded (included : JVal) : Except Unit (Option (List JVal)) :=
  match included with
  | .undefined => .ok none
  | .null => .ok none
  | .arr xs => do
      let ds ← mapResources xs
      pure (some (ds.map .obj))
  | _ => .error ()

/-- jsonapi.ts `deserialize` (lines 151-175): decode the meta, then map
`deserializeResource` over an array data field or apply it to a single
one, and decode the included resources. -/
def deserialize (response : JsonApiResponse) : Except Unit DeserializedResponse := do
  let meta := deserializeMeta response.meta
  match response.data with
  | .arr xs => do
      let ds ← mapResources xs
      let included ← deserializeIncluded response.included
      pure ⟨.arr (ds.map .obj), meta, included⟩
  | d => do
      let r ← deserializeResource d
      let included ← deserializeIncluded response.included
      pure ⟨.obj r, meta, included⟩

/-- A value on which JS member access does not raise: neither null nor
undefined. -/
def notNullish : JVal → Bool
  | .null => false
  | .undefined => false
  | _ => true

theorem getField_of_notNullish {v : JVal} (h : notNullish v = true) (k : Str) :
    getField v k = .ok (getFieldT v k) := by
  cases v <;> simp_all [notNullish, getField]

theorem getField_of_nullish {v : JVal} (h : notNullish v = false) (k : Str) :
    getField v k = .error () := by
  cases v <;> simp_all [notNullish, getField]

theorem objGet_objSet_self {α : Type} (m : List (Str × α)) (k : Str) (v : α) :
    objGet (objSet m k v) k = some v := by
  induction m with
  | nil => simp [objSet, objGet, List.find?]
  | cons kv rest ih =>
    by_cases h : kv.1 == k
    · simp [objSet, h, objGet, List.find?]
    · simp only [objSet, h, if_false]
      simpa [objGet, List.find?, h] using ih

theorem objGet_objSet_ne {α : Type} (m : List (Str × α)) {k k' : Str} (v : α)
    (h : k' ≠ k) : objGet (objSet m k v) k' = objGet m k' := by
  induction m with
  | nil =>
    have : (k == k') = false := by
      simp [beq_iff_eq]
      exact fun he => h he.symm
    simp [objSet, objGet, List.find?, this]
  | cons kv rest ih =>
    by_cases hk : kv.1 == k
    · have hkk : kv.1 = k := by simpa [beq_iff_eq] using hk
      have h1 : (k == k') = false := by
        simp [beq_iff_eq]
        exact fun he => h he.symm
      have h2 : (kv.1 == k') = false := by
        simp [beq_iff_eq, hkk]
        exact fun he => h he.symm
      simp [objSet, hk, objGet, List.find?, h1, h2]
    · by_cases hk' : kv.1 == k'
      · simp [objSet, hk, objGet, List.find?, hk']
      · simp only [objSet, hk, if_false]
        simpa [objGet, List.find?, hk'] using ih

/-- Whether a modelled computation completed without a TypeError. -/
def exOk {α : Type} : Except Unit α → Bool
  | .ok _ => true
  | .error _ => false

/-- The value bound for one relationship entry whose value is not
null/undefined: the data field collapsed to a list. -/
def relStepVal (v : JVal) : JVal :=
  match getFieldT v (strOf "data") with
  | .null => .arr []
  | .arr xs => .arr xs
  | d => .arr [d]

/-- The total restatement of the relationship entry loop, defined on
entries whose values are not null/undefined. -/
def relFoldT : List (Str × JVal) → List (Str × JVal) → List (Str × JVal)
  | [], acc => acc
  | kv :: rest, acc => relFoldT rest (objSet acc (kebabToCamel kv.1) (relStepVal kv.2))

theorem relStep_ok (acc : List (Str × JVal)) (k : Str) {v : JVal}
    (h : notNullish v = true) :
    relStep acc (k, v) = .ok (objSet acc (kebabToCamel k) (relStepVal v)) := by
  unfold relStep relStepVal
  rw [getField_of_notNullish h]
  cases hd : getFieldT v (strOf "data") <;> rfl

theorem relStep_err (acc : List (Str × JVal)) (k : Str) {v : JVal}
    (h : notNullish v = false) : relStep acc (k, v) = .error () := by
  unfold relStep
  rw [getField_of_nullish h]
  rfl

theorem relLoop_ok {entries : List (Str × JVal)}
    (h : ∀ kv ∈ entries, notNullish kv.2 = true) (acc : List (Str × JVal)) :
    relLoop entries acc = .ok (relFoldT entries acc) := by
  induction entries generalizing acc with
  | nil => rfl
  | cons kv rest ih =>
    have hv : notNullish kv.2 = true := h kv (by simp)
    have hstep : relLoop (kv :: rest) acc =
        Except.bind (relStep acc kv) (fun a => relLoop rest a) := rfl
    rw [hstep, relStep_ok acc kv.1 hv]
    exact ih (fun e he => h e (by simp [he])) _

theorem relLoop_append (l1 l2 : List (Str × JVal)) (acc : List (Str × JVal)) :
    relLoop (l1 ++ l2) acc =
      Except.bind (relLoop l1 acc) (fun a => relLoop l2 a) := by
  induction l1 generalizing acc with
  | nil => cases h : relLoop l2 acc <;> rfl
  | cons kv rest ih =>
    have h1 : relLoop ((kv :: rest) ++ l2) acc =
        Except.bind (relStep acc kv) (fun a => relLoop (rest ++ l2) a) := rfl
    have h2 : relLoop (kv :: rest) acc =
        Except.bind (relStep acc kv) (fun a => relLoop rest a) := rfl
    rw [h1, h2]
    cases h : relStep acc kv with
    | error e => rfl
    | ok a => exact ih a

theorem objGet_relFoldT_ne {entries : List (Str × JVal)} {ck : Str}
    (h : ∀ kv ∈ entries, kebabToCamel kv.1 ≠ ck) (acc : List (Str × JVal)) :
    objGet (relFoldT entries acc) ck = objGet acc ck := by
  induction entries generalizing acc with
  | nil => rfl
  | cons kv rest ih =>
    rw [relFoldT, ih (fun e he => h e (by simp [he])),
      objGet_objSet_ne _ _ (fun he => h kv (by simp) he.symm)]

theorem objGet_some_length {α : Type} {m : List (Str × α)} {ck : Str} {x : α}
    (h : objGet m ck = some x) : 0 < m.length := by
  cases m with
  | nil => simp [objGet, List.find?] at h
  | cons kv rest => simp

/-- Reading the decoded relationships map out of a decoded resource, for
stating properties of the decoder. -/
def decodedRel (r : JVal) : Option (List (Str × JVal)) :=
  match deserializeResource r with
  | .ok res =>
    match objGet res (strOf "relationships") with
    | some (.obj m) => some m
    | _ => none
  | .error _ => none

/-- The id/type seed of a decoded resource object. -/
def drBase (rfields : List (Str × JVal)) : List (Str × JVal) :=
  [(strOf "id", getFieldT (.obj rfields) (strOf "id")),
   (strOf "type", getFieldT (.obj rfields) (strOf "type"))]

/-- The decoded resource object after flattening the attributes, before
relationships are attached. -/
def drAttrs (rfields : List (Str × JVal)) : List (Str × JVal) :=
  if truthy (getFieldT (.obj rfields) (strOf "attributes")) then
    (entriesOf (getFieldT (.obj rfields) (strOf "attributes"))).foldl
      (fun acc kv => objSet acc (kebabToCamel kv.1) (convertKeysToCamel kv.2))
      (drBase rfields)
  else drBase rfields

theorem deserializeResource_obj (rfields : List (Str × JVal)) :
    deserializeResource (.obj rfields) =
      Except.bind
        (deserializeRelationships (getFieldT (.obj rfields) (strOf "relationships")))
        (fun rels =>
          match rels with
          | some r => .ok (objSet (drAttrs rfields) (strOf "relationships") (.obj r))
          | none => .ok (drAttrs rfields)) := rfl

/-- C4: a wire relationship entry decodes to a list binding under its
camelCased key: the empty list when its data field is null, the list
itself for an array, and a one-element list for a scalar reference.  The
surrounding entries must themselves be decodable (not null/undefined) and
no later entry may convert to the same internal key, since the JS
assignment in the loop lets the last colliding entry win. -/
theorem c4_relationship_decoding :
    (∀ (rfields pre post : List (Str × JVal)) (k : Str) (v : JVal),
      notNullish v = true →
      (∀ kv ∈ pre, notNullish kv.2 = true) →
      (∀ kv ∈ post, notNullish kv.2 = true) →
      (∀ kv ∈ post, kebabToCamel kv.1 ≠ kebabToCamel k) →
      getFieldT (.obj rfields) (strOf "relationships") =
        .obj (pre ++ (k, v) :: post) →
      (decodedRel (.obj rfields)).bind
          (fun m => objGet m (kebabToCamel k)) = some (relStepVal v)) ∧
    (∀ v : JVal, getFieldT v (strOf "data") = .null → relStepVal v = .arr []) ∧
    (∀ (v : JVal) (rf : List (Str × JVal)),
      getFieldT v (strOf "data") = .obj rf → relStepVal v = .arr [.obj rf]) := by
  refine ⟨?_, ?_, ?_⟩
  · intro rfields pre post k v hv hpre hpost hnc hrel
    have hloop : relLoop (pre ++ (k, v) :: post) [] =
        .ok (relFoldT post (objSet (relFoldT pre [])
          (kebabToCamel k) (relStepVal v))) := by
      rw [relLoop_append, relLoop_ok hpre]
      have hstep : Except.bind (Except.ok (relFoldT pre []))
            (fun a => relLoop ((k, v) :: post) a) =
          relLoop ((k, v) :: post) (relFoldT pre []) := rfl
      rw [hstep]
      have h2 : relLoop ((k, v) :: post) (relFoldT pre []) =
          Except.bind (relStep (relFoldT pre []) (k, v))
            (fun a => relLoop post a) := rfl
      rw [h2, relStep_ok _ _ hv]
      exact relLoop_ok hpost _
    have hget : objGet (relFoldT post (objSet (relFoldT pre [])
        (kebabToCamel k) (relStepVal v))) (kebabToCamel k) = some (relStepVal v) := by
      rw [objGet_relFoldT_ne hnc, objGet_objSet_self]
    have hlen : 0 < (relFoldT post (objSet (relFoldT pre [])
        (kebabToCamel k) (relStepVal v))).length := objGet_some_length hget
    have hdr : deserializeRelationships (.obj (pre ++ (k, v) :: post)) =
        .ok (some (relFoldT post (objSet (relFoldT pre [])
          (kebabToCamel k) (relStepVal v)))) := by
      unfold deserializeRelationships
      rw [show truthy (.obj (pre ++ (k, v) :: post)) = true from rfl]
      show Except.bind (relLoop (entriesOf (.obj (pre ++ (k, v) :: post))) []) _ = _
      rw [show entriesOf (.obj (pre ++ (k, v) :: post)) = pre ++ (k, v) :: post from rfl,
        hloop]
      show (if 0 < (relFoldT post (objSet (relFoldT pre [])
          (kebabToCamel k) (relStepVal v))).length then _ else _) = _
      rw [if_pos hlen]
      rfl
    have hres : deserializeResource (.obj rfields) =
        .ok (objSet (drAttrs rfields) (strOf "relationships")
          (.obj (relFoldT post (objSet (relFoldT pre [])
            (kebabToCamel k) (relStepVal v))))) := by
      rw [deserializeResource_obj, hrel, hdr]
      rfl
    unfold decodedRel
    rw [hres]
    show (match objGet (objSet (drAttrs rfields) (strOf "relationships")
        (.obj (relFoldT post (objSet (relFoldT pre [])
          (kebabToCamel k) (relStepVal v))))) (strOf "relationships") with
      | some (.obj m) => some m
      | _ => none).bind (fun m => objGet m (kebabToCamel k)) = some (relStepVal v)
    rw [objGet_objSet_self]
    show objGet (relFoldT post (objSet (relFoldT pre [])
      (kebabToCamel k) (relStepVal v))) (kebabToCamel k) = some (relStepVal v)
    exact hget
  · intro v h
    unfold relStepVal
    rw [h]
  · intro v rf h
    unfold relStepVal
    rw [h]

theorem c4_relationship_decoding_witness :
    (decodedRel (JVal.obj [(strOf "id", JVal.str (strOf "1")),
        (strOf "type", JVal.str (strOf "organizations")),
        (strOf "relationships", JVal.obj [(strOf "locations",
          JVal.obj [(strOf "data", JVal.null)])])])).bind
      (fun m => objGet m (kebabToCamel (strOf "locations"))) = some (JVal.arr []) := by
  have h := c4_relationship_decoding.1
    [(strOf "id", JVal.str (strOf "1")),
     (strOf "type", JVal.str (strOf "organizations")),
     (strOf "relationships", JVal.obj [(strOf "locations",
       JVal.obj [(strOf "data", JVal.null)])])]
    [] [] (strOf "locations") (JVal.obj [(strOf "data", JVal.null)])
    rfl (by intro kv hkv; cases hkv) (by intro kv hkv; cases hkv)
    (by intro kv hkv; cases hkv) (by rfl)
  rw [h, c4_relationship_decoding.2.1 (JVal.obj [(strOf "data", JVal.null)]) (by rfl)]

/-- C4 counterexample: the claim as stated fails when a later relationship
entry converts to the same internal key.  The wire keys a-b and aB are
distinct, but both convert to the internal key aB, and the JS assignment
in the loop lets the second entry overwrite the first: the a-b entry has
null data, yet its converted key ends up bound to the one-element list of
the second entry, not to the empty list. -/
theorem c4_counterexample :
    (decodedRel (JVal.obj [(strOf "id", JVal.str (strOf "1")),
        (strOf "type", JVal.str (strOf "organizations")),
        (strOf "relationships", JVal.obj
          [(strOf "a-b", JVal.obj [(strOf "data", JVal.null)]),
           (strOf "aB", JVal.obj [(strOf "data",
             JVal.obj [(strOf "id", JVal.str (strOf "9")),
                       (strOf "type", JVal.str (strOf "things"))])])])])).bind
      (fun m => objGet m (kebabToCamel (strOf "a-b"))) =
        some (JVal.arr [JVal.obj [(strOf "id", JVal.str (strOf "9")),
          (strOf "type", JVal.str (strOf "things"))]]) ∧
    JVal.arr [JVal.obj [(strOf "id", JVal.str (strOf "9")),
      (strOf "type", JVal.str (strOf "things"))]] ≠ JVal.arr [] := by
  exact ⟨rfl, by simp⟩

theorem exOk_bind {α β : Type} (x : Except Unit α) (f : α → Except Unit β) :
    exOk (Except.bind x f) =
      (match x with
       | .ok a => exOk (f a)
       | .error _ => false) := by
  cases x <;> rfl

theorem exOk_relLoop (entries : List (Str × JVal)) (acc : List (Str × JVal)) :
    exOk (relLoop entries acc) = entries.all (fun kv => notNullish kv.2) := by
  induction entries generalizing acc with
  | nil => rfl
  | cons kv rest ih =>
    have hstep : relLoop (kv :: rest) acc =
        Except.bind (relStep acc kv) (fun a => relLoop rest a) := rfl
    rw [hstep, exOk_bind]
    cases hv : notNullish kv.2 with
    | true =>
      rw [relStep_ok acc kv.1 hv]
      simp [List.all_cons, hv, ih]
    | false =>
      rw [relStep_err acc kv.1 hv]
      simp [List.all_cons, hv]

/-- Whether every relationship entry value of a resource survives the
member access in the entry loop. -/
def relEntriesOkB (r : JVal) : Bool :=
  !truthy (getFieldT r (strOf "relationships")) ||
    (entriesOf (getFieldT r (strOf "relationships"))).all (fun kv => notNullish kv.2)

/-- Whether decoding one resource value completes without a TypeError:
the value itself is not null/undefined and its relationship entries are
decodable. -/
def resourceOkB (r : JVal) : Bool := notNullish r && relEntriesOkB r

theorem exOk_deserializeRelationships (rel : JVal) :
    exOk (deserializeRelationships rel) =
      (!truthy rel || (entriesOf rel).all (fun kv => notNullish kv.2)) := by
  by_cases ht : truthy rel = true
  · have hne : (!truthy rel) = false := by rw [ht]; rfl
    have hd : deserializeRelationships rel =
        Except.bind (relLoop (entriesOf rel) [])
          (fun result => if result.length > 0 then pure (some result) else pure none) := by
      unfold deserializeRelationships
      rw [ht]
      rfl
    rw [hd, exOk_bind, hne, Bool.false_or]
    cases hl : relLoop (entriesOf rel) [] with
    | error e => rw [← exOk_relLoop (entriesOf rel) [], hl]; rfl
    | ok a =>
      rw [← exOk_relLoop (entriesOf rel) [], hl]
      show exOk (if a.length > 0 then pure (some a) else pure none) = true
      by_cases hlen : a.length > 0
      · rw [if_pos hlen]
        rfl
      · rw [if_neg hlen]
        rfl
  · have ht' : truthy rel = false := by
      cases h : truthy rel
      · rfl
      · exact absurd h ht
    unfold deserializeRelationships
    rw [ht']
    rfl

theorem exOk_deserializeResource (r : JVal) : exOk (deserializeResource r) = resourceOkB r := by
  cases r with
  | undefined => rfl
  | null => rfl
  | bool b => rfl
  | num n => rfl
  | str s => rfl
  | arr xs => rfl
  | obj fs =>
    have hx := exOk_deserializeRelationships (getFieldT (.obj fs) (strOf "relationships"))
    rw [deserializeResource_obj, exOk_bind]
    have hok : resourceOkB (.obj fs) = relEntriesOkB (.obj fs) := by
      simp [resourceOkB, notNullish]
    rw [hok]
    cases hl : deserializeRelationships (getFieldT (.obj fs) (strOf "relationships")) with
    | error e =>
      rw [hl] at hx
      exact hx
    | ok a =>
      rw [hl] at hx
      cases a with
      | none => exact hx
      | some m => exact hx

theorem exOk_mapResources (xs : List JVal) :
    exOk (mapResources xs) = xs.all resourceOkB := by
  induction xs with
  | nil => rfl
  | cons x rest ih =>
    have hstep : mapResources (x :: rest) =
        Except.bind (deserializeResource x)
          (fun r => Except.bind (mapResources rest) (fun rs => pure (r :: rs))) := rfl
    rw [hstep, exOk_bind]
    cases hx : deserializeResource x with
    | error e =>
      have := exOk_deserializeResource x
      rw [hx] at this
      simp [List.all_cons, ← this, exOk]
    | ok r =>
      have hr := exOk_deserializeResource x
      rw [hx] at hr
      show exOk (Except.bind (mapResources rest) (fun rs => pure (r :: rs))) = _
      rw [exOk_bind]
      cases hm : mapResources rest with
      | error e =>
        rw [hm] at ih
        simp [List.all_cons, ← ih, ← hr, exOk]
      | ok rs =>
        rw [hm] at ih
        simp [List.all_cons, ← ih, ← hr, exOk]
        rfl

/-- Whether the optional included list can be processed without a
TypeError: absent or null is skipped, a list is mapped element-wise, and
any other value has no map method. -/
def includedOkB : JVal → Bool
  | .undefined => true
  | .null => true
  | .arr xs => xs.all resourceOkB
  | _ => false

/-- Whether the data field of an envelope decodes without a TypeError. -/
def dataOkB : JVal → Bool
  | .arr xs => xs.all resourceOkB
  | d => resourceOkB d

theorem exOk_deserializeIncluded (v : JVal) :
    exOk (deserializeIncluded v) = includedOkB v := by
  cases v with
  | arr xs =>
    show exOk (Except.bind (mapResources xs)
      (fun ds => pure (some (ds.map JVal.obj)))) = includedOkB (JVal.arr xs)
    rw [exOk_bind]
    cases hm : mapResources xs with
    | error e =>
      have := exOk_mapResources xs
      rw [hm] at this
      exact this
    | ok ds =>
      have := exOk_mapResources xs
      rw [hm] at this
      exact this
  | undefined => rfl
  | null => rfl
  | bool b => rfl
  | num n => rfl
  | str s => rfl
  | obj fs => rfl

theorem exOk_bind_bind_pure {α β γ : Type} (x : Except Unit α) (y : Except Unit β)
    (g : α → β → γ) :
    exOk (Except.bind x (fun a => Except.bind y (fun b => pure (g a b)))) =
      (exOk x && exOk y) := by
  cases x <;> cases y <;> rfl

theorem exOk_deserialize (response : JsonApiResponse) :
    exOk (deserialize response) =
      (dataOkB response.data && includedOkB response.included) := by
  obtain ⟨d, m, inc⟩ := response
  cases d with
  | arr xs =>
    show exOk (Except.bind (mapResources xs)
        (fun ds => Except.bind (deserializeIncluded inc)
          (fun i => pure (DeserializedResponse.mk (JVal.arr (ds.map JVal.obj))
            (deserializeMeta m) i)))) =
      (dataOkB (JVal.arr xs) && includedOkB inc)
    rw [exOk_bind_bind_pure, exOk_mapResources, exOk_deserializeIncluded]
    rfl
  | undefined =>
    show exOk (Except.bind (deserializeResource JVal.undefined)
        (fun r => Except.bind (deserializeIncluded inc)
          (fun i => pure (DeserializedResponse.mk (JVal.obj r) (deserializeMeta m) i)))) =
      (dataOkB JVal.undefined && includedOkB inc)
    rw [exOk_bind_bind_pure, exOk_deserializeResource, exOk_deserializeIncluded]
    rfl
  | null =>
    show exOk (Except.bind (deserializeResource JVal.null)
        (fun r => Except.bind (deserializeIncluded inc)
          (fun i => pure (DeserializedResponse.mk (JVal.obj r) (deserializeMeta m) i)))) =
      (dataOkB JVal.null && includedOkB inc)
    rw [exOk_bind_bind_pure, exOk_deserializeResource, exOk_deserializeIncluded]
    rfl
  | bool b =>
    show exOk (Except.bind (deserializeResource (JVal.bool b))
        (fun r => Except.bind (deserializeIncluded inc)
          (fun i => pure (DeserializedResponse.mk (JVal.obj r) (deserializeMeta m) i)))) =
      (dataOkB (JVal.bool b) && includedOkB inc)
    rw [exOk_bind_bind_pure, exOk_deserializeResource, exOk_deserializeIncluded]
    rfl
  | num n =>
    show exOk (Except.bind (deserializeResource (JVal.num n))
        (fun r => Except.bind (deserializeIncluded inc)
          (fun i => pure (DeserializedResponse.mk (JVal.obj r) (deserializeMeta m) i)))) =
      (dataOkB (JVal.num n) && includedOkB inc)
    rw [exOk_bind_bind_pure, exOk_deserializeResource, exOk_deserializeIncluded]
    rfl
  | str s =>
    show exOk (Except.bind (deserializeResource (JVal.str s))
        (fun r => Except.bind (deserializeIncluded inc)
          (fun i => pure (DeserializedResponse.mk (JVal.obj r) (deserializeMeta m) i)))) =
      (dataOkB (JVal.str s) && includedOkB inc)
    rw [exOk_bind_bind_pure, exOk_deserializeResource, exOk_deserializeIncluded]
    rfl
  | obj fs =>
    show exOk (Except.bind (deserializeResource (JVal.obj fs))
        (fun r => Except.bind (deserializeIncluded inc)
          (fun i => pure (DeserializedResponse.mk (JVal.obj r) (deserializeMeta m) i)))) =
      (dataOkB (JVal.obj fs) && includedOkB inc)
    rw [exOk_bind_bind_pure, exOk_deserializeResource, exOk_deserializeIncluded]
    rfl

theorem find?_append_some {α : Type} {p : α → Bool} {l1 : List α} {x : α}
    (l2 : List α) (h : l1.find? p = some x) : (l1 ++ l2).find? p = some x := by
  induction l1 with
  | nil => simp [List.find?] at h
  | cons a rest ih =>
    cases hp : p a with
    | true => simp_all [List.find?_cons_of_pos]
    | false =>
      rw [List.find?_cons_of_neg _ (by simp [hp])] at h
      rw [List.cons_append, List.find?_cons_of_neg _ (by simp [hp])]
      exact ih h

theorem find?_append_none {α : Type} {p : α → Bool} {l1 : List α}
    (l2 : List α) (h : l1.find? p = none) : (l1 ++ l2).find? p = l2.find? p := by
  induction l1 with
  | nil => rfl
  | cons a rest ih =>
    cases hp : p a with
    | true => simp_all [List.find?_cons_of_pos]
    | false =>
      rw [List.find?_cons_of_neg _ (by simp [hp])] at h
      rw [List.cons_append, List.find?_cons_of_neg _ (by simp [hp])]
      exact ih h

theorem getFieldT_obj_append_ne (fs : List (Str × JVal)) (ak : Str) (av : JVal)
    {k : Str} (h : k ≠ ak) :
    getFieldT (.obj (fs ++ [(ak, av)])) k = getFieldT (.obj fs) k := by
  show ((((fs ++ [(ak, av)]).find? (fun p => p.1 == k)).map Prod.snd).getD .undefined) =
    (((fs.find? (fun p => p.1 == k)).map Prod.snd).getD .undefined)
  cases hf : fs.find? (fun p => p.1 == k) with
  | some kv => rw [find?_append_some _ hf]
  | none =>
    rw [find?_append_none _ hf]
    have : (ak == k) = false := by
      simp [beq_iff_eq]
      exact fun he => h he.symm
    simp [List.find?, this]

/-- C5 (amended): decoding is total on coercible shapes and the decoder
raises exactly on the shapes whose member accesses raise in JS.  First
conjunct: `deserialize` completes without a TypeError exactly when the
data field (or each element of a data list) is not null/undefined and has
only non-null relationship entry values, and the included field, when
present, is a list of such resources — in particular scalar data values
are coerced, not thrown on.  Second conjunct: a resource with a missing
attributes map decodes exactly as if its attributes were the empty map. -/
theorem c5_decode_failure_semantics :
    (∀ response : JsonApiResponse,
      exOk (deserialize response) =
        (dataOkB response.data && includedOkB response.included)) ∧
    (∀ rfields : List (Str × JVal),
      getFieldT (.obj rfields) (strOf "attributes") = .undefined →
      deserializeResource (.obj rfields) =
        deserializeResource (.obj (rfields ++ [(strOf "attributes", .obj [])]))) := by
  constructor
  · exact exOk_deserialize
  · intro rfields h
    have hid : getFieldT (.obj (rfields ++ [(strOf "attributes", .obj [])])) (strOf "id") =
        getFieldT (.obj rfields) (strOf "id") :=
      getFieldT_obj_append_ne _ _ _ (by decide)
    have htype : getFieldT (.obj (rfields ++ [(strOf "attributes", .obj [])])) (strOf "type") =
        getFieldT (.obj rfields) (strOf "type") :=
      getFieldT_obj_append_ne _ _ _ (by decide)
    have hrel : getFieldT (.obj (rfields ++ [(strOf "attributes", .obj [])]))
          (strOf "relationships") =
        getFieldT (.obj rfields) (strOf "relationships") :=
      getFieldT_obj_append_ne _ _ _ (by decide)
    have hA : drAttrs (rfields ++ [(strOf "attributes", .obj [])]) = drAttrs rfields := by
      unfold drAttrs drBase
      rw [hid, htype]
      cases hf : rfields.find? (fun p => p.1 == strOf "attributes") with
      | none =>
        have hR : getFieldT (.obj (rfields ++ [(strOf "attributes", .obj [])]))
            (strOf "attributes") = .obj [] := by
          show ((((rfields ++ [(strOf "attributes", JVal.obj [])]).find?
            (fun p : Str × JVal => p.1 == strOf "attributes")).map
              Prod.snd).getD JVal.undefined) = _
          rw [find?_append_none _ hf]
          simp [List.find?]
        rw [hR, h]
        rfl
      | some kv =>
        have hL : getFieldT (.obj rfields) (strOf "attributes") = kv.2 := by
          show (((rfields.find? (fun p : Str × JVal => p.1 == strOf "attributes")).map
            Prod.snd).getD JVal.undefined) = _
          rw [hf]
          rfl
        have hkv : kv.2 = .undefined := by
          rw [hL] at h
          exact h
        have hR : getFieldT (.obj (rfields ++ [(strOf "attributes", .obj [])]))
            (strOf "attributes") = kv.2 := by
          show ((((rfields ++ [(strOf "attributes", JVal.obj [])]).find?
            (fun p : Str × JVal => p.1 == strOf "attributes")).map
              Prod.snd).getD JVal.undefined) = _
          rw [find?_append_some _ hf]
          rfl
        rw [hR, hL, hkv]
    rw [deserializeResource_obj, deserializeResource_obj, hrel, hA]

theorem c5_decode_failure_semantics_witness :
    deserializeResource (JVal.obj [(strOf "id", JVal.str (strOf "1")),
        (strOf "type", JVal.str (strOf "organizations"))]) =
      deserializeResource (JVal.obj ([(strOf "id", JVal.str (strOf "1")),
        (strOf "type", JVal.str (strOf "organizations"))] ++
        [(strOf "attributes", JVal.obj [])])) :=
  c5_decode_failure_semantics.2
    [(strOf "id", JVal.str (strOf "1")),
     (strOf "type", JVal.str (strOf "organizations"))] (by rfl)

/-- C5 counterexample: the claim as stated says the decoder throws if and
only if the envelope's data field is neither an object nor a list.  A
numeric data value is neither, yet `deserialize` succeeds on it: the JS
member accesses on a number simply yield undefined.  (The decoder in fact
throws exactly on null/undefined member-access receivers, not on every
non-object.) -/
theorem c5_counterexample :
    exOk (deserialize { data := JVal.num 5 }) = true := rfl

/-- The decimal JS string of an integer. -/
def intToStr (n : Int) : Str := strOf (toString n)

/-- JS String(value) on the primitive values that reach the stringify
branch of the query builder.  (Arrays take the join branch and plain
objects the recursive branch, so their cases are unreachable there.) -/
def jsScalarString : JVal → Str
  | .undefined => strOf "undefined"
  | .null => strOf "null"
  | .bool true => strOf "true"
  | .bool false => strOf "false"
  | .num n => intToStr n
  | .str s => s
  | .arr _ => []
  | .obj _ => []

/-- One element of an Array.prototype.join: null and undefined render as
the empty string, everything else as its JS string. -/
def jsJoinElem : JVal → Str
  | .undefined => []
  | .null => []
  | v => jsScalarString v

/-- Array.prototype.join with the comma separator, as used for
array-valued query parameters. -/
def jsJoin : List JVal → Str
  | [] => []
  | [x] => jsJoinElem x
  | x :: rest => jsJoinElem x ++ 44 :: jsJoin rest

/-- The parameter key built inside jsonapi.ts `buildQueryParams`: the
bracketed nested key when the prefix is nonempty (a truthy JS string),
else the kebab key alone. -/
def paramKeyFor (pk : Str) (k : Str) : Str :=
  if pk = [] then camelToKebab k
  else pk ++ 91 :: camelToKebab k ++ [93]

mutual

/-- The recursive `addParam` of jsonapi.ts `buildQueryParams` (lines
226-245): skip null/undefined, recurse into plain objects with bracketed
kebab-cased keys, join arrays with commas, and stringify primitives; the
URLSearchParams set overwrites an existing binding in place. -/
def addParam : Str → JVal → List (Str × Str) → List (Str × Str)
  | _, .undefined, sp => sp
  | _, .null, sp => sp
  | key, .obj fields, sp => addParamFields key fields sp
  | key, .arr xs, sp => objSet sp key (jsJoin xs)
  | key, v, sp => objSet sp key (jsScalarString v)

/-- The entry loop of `addParam` over a nested object. -/
def addParamFields : Str → List (Str × JVal) → List (Str × Str) → List (Str × Str)
  | _, [], sp => sp
  | key, kv :: rest, sp =>
    addParamFields key rest (addParam (paramKeyFor key kv.1) kv.2 sp)

end

/-- jsonapi.ts `buildQueryParams` (lines 223-258): the top-level entry
loop, skipping null/undefined values and kebab-casing top-level keys. -/
def buildQueryParams (params : List (Str × JVal)) : List (Str × Str) :=
  params.foldl
    (fun sp kv =>
      match kv.2 with
      | .undefined => sp
      | .null => sp
      | v => addParam (camelToKebab kv.1) v sp) []

theorem addParamFields_append (pk : Str) (l1 l2 : List (Str × JVal))
    (sp : List (Str × Str)) :
    addParamFields pk (l1 ++ l2) sp = addParamFields pk l2 (addParamFields pk l1 sp) := by
  induction l1 generalizing sp with
  | nil => rfl
  | cons kv rest ih => exact ih _

/-- C6 (amended): a null or undefined value is skipped entirely at the
top level and inside nested maps at any depth, with no key emitted and no
error; a null or undefined element of a list value, however, is not
skipped: the comma join renders it as an empty segment. -/
theorem c6_nullish_query_params :
    (∀ (ps1 ps2 : List (Str × JVal)) (k : Str),
      buildQueryParams (ps1 ++ (k, JVal.null) :: ps2) = buildQueryParams (ps1 ++ ps2)) ∧
    (∀ (ps1 ps2 : List (Str × JVal)) (k : Str),
      buildQueryParams (ps1 ++ (k, JVal.undefined) :: ps2) = buildQueryParams (ps1 ++ ps2)) ∧
    (∀ (pk : Str) (es1 es2 : List (Str × JVal)) (k : Str) (sp : List (Str × Str)),
      addParam pk (.obj (es1 ++ (k, JVal.null) :: es2)) sp =
        addParam pk (.obj (es1 ++ es2)) sp) ∧
    (∀ (pk : Str) (es1 es2 : List (Str × JVal)) (k : Str) (sp : List (Str × Str)),
      addParam pk (.obj (es1 ++ (k, JVal.undefined) :: es2)) sp =
        addParam pk (.obj (es1 ++ es2)) sp) ∧
    jsJoin [JVal.num 1, JVal.null] = strOf "1," := by
  refine ⟨?_, ?_, ?_, ?_, ?_⟩
  · intro ps1 ps2 k
    unfold buildQueryParams
    rw [List.foldl_append, List.foldl_append, List.foldl_cons]
  · intro ps1 ps2 k
    unfold buildQueryParams
    rw [List.foldl_append, List.foldl_append, List.foldl_cons]
  · intro pk es1 es2 k sp
    show addParamFields pk (es1 ++ (k, JVal.null) :: es2) sp =
      addParamFields pk (es1 ++ es2) sp
    rw [addParamFields_append, addParamFields_append]
    rfl
  · intro pk es1 es2 k sp
    show addParamFields pk (es1 ++ (k, JVal.undefined) :: es2) sp =
      addParamFields pk (es1 ++ es2) sp
    rw [addParamFields_append, addParamFields_append]
    rfl
  · rfl

/-- C6 counterexample: the claim as stated says a null element of a list
value contributes nothing to the output.  In fact the comma join renders
it as an empty segment: the value for key a becomes the string 1-comma
rather than the string 1, so the output differs from the one with the
null element removed. -/
theorem c6_counterexample :
    buildQueryParams [(strOf "a", JVal.arr [JVal.num 1, JVal.null])] =
      [(strOf "a", strOf "1,")] ∧
    buildQueryParams [(strOf "a", JVal.arr [JVal.num 1])] = [(strOf "a", strOf "1")] ∧
    buildQueryParams [(strOf "a", JVal.arr [JVal.num 1, JVal.null])] ≠
      buildQueryParams [(strOf "a", JVal.arr [JVal.num 1])] := by
  refine ⟨rfl, rfl, by decide⟩

/-- Property-existence test, the JS `in` operator on a plain object. -/
def hasKey {α : Type} (fields : List (Str × α)) (k : Str) : Bool :=
  fields.any (fun p => p.1 == k)

/-- The operator-object test of jsonapi.ts `buildFilterParams`: a plain
object (not an array, null already excluded) with at least one of the
comparison keys gt, gte, lt, lte present. -/
def isOpObject : JVal → Bool
  | .obj fields =>
    hasKey fields (strOf "gt") || hasKey fields (strOf "gte") ||
      hasKey fields (strOf "lt") || hasKey fields (strOf "lte")
  | _ => false

/-- The four operator emissions of `buildFilterParams` for one filter
entry, in source order; an operator key that is absent or explicitly
undefined emits nothing. -/
def expandOps (r0 : List (Str × JVal)) (k : Str) (v : JVal) : List (Str × JVal) :=
  let r1 := match getFieldT v (strOf "gt") with
    | .undefined => r0
    | g => objSet r0 (k ++ strOf "[gt]") g
  let r2 := match getFieldT v (strOf "gte") with
    | .undefined => r1
    | g => objSet r1 (k ++ strOf "[gte]") g
  let r3 := match getFieldT v (strOf "lt") with
    | .undefined => r2
    | g => objSet r2 (k ++ strOf "[lt]") g
  match getFieldT v (strOf "lte") with
  | .undefined => r3
  | g => objSet r3 (k ++ strOf "[lte]") g

/-- jsonapi.ts `buildFilterParams` (lines 263-302): the empty map for an
absent filter; otherwise each entry is skipped when null/undefined,
expanded into bracketed operator keys when it is an operator object, and
assigned through unchanged otherwise. -/
def buildFilterParams (filter : Option (List (Str × JVal))) : List (Str × JVal) :=
  match filter with
  | none => []
  | some fs =>
    fs.foldl
      (fun result kv =>
        match kv.2 with
        | .undefined => result
        | .null => result
        | v =>
          if isOpObject v then expandOps result kv.1 v
          else objSet result kv.1 v) []

/-- C8 (amended): `buildFilterParams` returns the empty map for an absent
filter; expands an entry whose value is an operator object into bracketed
per-operator keys, one per operator present (shown generally for
string-valued gt/lt operators and concretely for the createdAt example of
the specification); passes an entry whose value is neither null/undefined
nor an operator object through with its field name unchanged; and skips
entries whose value is null or undefined. -/
theorem c8_filter_expansion :
    buildFilterParams none = [] ∧
    buildFilterParams (some [(strOf "createdAt",
        JVal.obj [(strOf "gt", JVal.str (strOf "2024-01-01")),
                  (strOf "lt", JVal.str (strOf "2024-12-31"))])]) =
      [(strOf "createdAt[gt]", JVal.str (strOf "2024-01-01")),
       (strOf "createdAt[lt]", JVal.str (strOf "2024-12-31"))] ∧
    (∀ (k : Str) (gs ls : Str),
      buildFilterParams (some [(k, JVal.obj [(strOf "gt", JVal.str gs),
          (strOf "lt", JVal.str ls)])]) =
        [(k ++ strOf "[gt]", JVal.str gs), (k ++ strOf "[lt]", JVal.str ls)]) ∧
    (∀ (k : Str) (v : JVal), notNullish v = true → isOpObject v = false →
      buildFilterParams (some [(k, v)]) = [(k, v)]) ∧
    (∀ (fs1 fs2 : List (Str × JVal)) (k : Str),
      buildFilterParams (some (fs1 ++ (k, JVal.null) :: fs2)) =
        buildFilterParams (some (fs1 ++ fs2))) ∧
    (∀ (fs1 fs2 : List (Str × JVal)) (k : Str),
      buildFilterParams (some (fs1 ++ (k, JVal.undefined) :: fs2)) =
        buildFilterParams (some (fs1 ++ fs2))) := by
  refine ⟨rfl, rfl, ?_, ?_, ?_, ?_⟩
  · intro k gs ls
    have hne : ((k ++ strOf "[gt]" : Str) == (k ++ strOf "[lt]")) = false := by
      rw [beq_eq_false_iff_ne]
      intro h
      exact absurd (List.append_cancel_left h) (by decide)
    show objSet [(k ++ strOf "[gt]", JVal.str gs)] (k ++ strOf "[lt]") (JVal.str ls) =
      [(k ++ strOf "[gt]", JVal.str gs), (k ++ strOf "[lt]", JVal.str ls)]
    simp [objSet, hne]
  · intro k v h1 h2
    cases v with
    | undefined => simp [notNullish] at h1
    | null => simp [notNullish] at h1
    | bool b => rfl
    | num n => rfl
    | str s => rfl
    | arr xs => rfl
    | obj fs =>
      show (if isOpObject (.obj fs) then expandOps [] k (.obj fs)
        else objSet [] k (.obj fs)) = [(k, JVal.obj fs)]
      rw [h2]
      rfl
  · intro fs1 fs2 k
    show List.foldl _ [] (fs1 ++ (k, JVal.null) :: fs2) = List.foldl _ [] (fs1 ++ fs2)
    rw [List.foldl_append, List.foldl_append, List.foldl_cons]
  · intro fs1 fs2 k
    show List.foldl _ [] (fs1 ++ (k, JVal.undefined) :: fs2) = List.foldl _ [] (fs1 ++ fs2)
    rw [List.foldl_append, List.foldl_append, List.foldl_cons]

theorem c8_filter_expansion_witness :
    buildFilterParams (some [(strOf "name", JVal.str (strOf "Acme"))]) =
      [(strOf "name", JVal.str (strOf "Acme"))] :=
  c8_filter_expansion.2.2.2.1 (strOf "name") (JVal.str (strOf "Acme")) rfl rfl

/-- C8 counterexample: the claim as stated says every entry that is not
an operator object is passed through with its field name unchanged.  An
entry whose value is null is not passed through: it is skipped, and the
resulting map is empty rather than binding the field to null. -/
theorem c8_counterexample :
    buildFilterParams (some [(strOf "a", JVal.null)]) = [] ∧
    ([] : List (Str × JVal)) ≠ [(strOf "a", JVal.null)] := by
  exact ⟨rfl, by simp⟩

/-- A JSON:API error object, with the fields the error classifier reads.
(The wire type also carries status, code and source pointers; they are
never read by `createErrorFromResponse`.) -/
structure JsonApiError where
  detail : Option String := none
  title : Option String := none
deriving Repr, DecidableEq

/-- The error taxonomy of errors.ts as a tagged kind; the validation kind
carries the parsed errors array, as the class does. -/
inductive ErrKind where
  | authentication
  | notFound
  | validation (errors : List JsonApiError)
  | rateLimit
  | server
  | network
  | timeout
  | generic
deriving Repr, DecidableEq

/-- The observable state of an errors.ts error instance: its class (as a
kind), its message and its status code. -/
structure ITGlueError where
  kind : ErrKind
  message : String
  statusCode : Nat
deriving Repr, DecidableEq

/-- The body of a non-success response as the classifier reads it. -/
structure ResponseBody where
  errors : Option (List JsonApiError) := none
  message : Option String := none
deriving Repr, DecidableEq

/-- The JS `a || b` over an optional string: an absent or empty string
falls through to the alternative. -/
def jsOrStr (a b : Option String) : Option String :=
  match a with
  | some s => if s = "" then b else some s
  | none => b

/-- The JS `a || d` used for the per-class default messages. -/
def jsOrDefault (a : Option String) (d : String) : String :=
  match a with
  | some s => if s = "" then d else s
  | none => d

/-- The message selected by errors.ts `createErrorFromResponse` (line
213): the first error's detail, else its title, else the body message,
under JS truthiness. -/
def responseMessage (response : Option ResponseBody) : Option String :=
  let firstErr := (response.bind ResponseBody.errors).bind List.head?
  jsOrStr (firstErr.bind JsonApiError.detail)
    (jsOrStr (firstErr.bind JsonApiError.title)
      (response.bind ResponseBody.message))

/-- errors.ts `createErrorFromResponse` (lines 205-270): the fixed
status-code switch.  401 and 403 build an authentication error carrying
the status; 404 a not-found error with status 404; 422 a validation error
with status 422 carrying the parsed errors array; 429 a rate-limit error
with status 429; any other status of at least 500 a server error; and any
remaining status the base error. -/
def createErrorFromResponse (statusCode : Nat) (response : Option ResponseBody) :
    ITGlueError :=
  let message := responseMessage response
  if statusCode = 401 ∨ statusCode = 403 then
    { kind := .authentication
      message := jsOrDefault message "Authentication failed. Check your API key."
      statusCode := statusCode }
  else if statusCode = 404 then
    { kind := .notFound
      message := jsOrDefault message "Resource not found."
      statusCode := 404 }
  else if statusCode = 422 then
    { kind := .validation ((response.bind ResponseBody.errors).getD [])
      message := jsOrDefault message "Validation failed."
      statusCode := 422 }
  else if statusCode = 429 then
    { kind := .rateLimit
      message := jsOrDefault message "Rate limit exceeded."
      statusCode := 429 }
  else if 500 ≤ statusCode then
    { kind := .server
      message := jsOrDefault message "Server error occurred."
      statusCode := statusCode }
  else
    { kind := .generic
      message := jsOrDefault message ("HTTP error " ++ toString statusCode)
      statusCode := statusCode }

/-- The status-to-category table as the specification states it,
independent of the implementation: 401/403 authentication, 404 not-found,
422 validation carrying the parsed errors array, 429 rate-limit, every
status of at least 500 server, any other non-success generic. -/
def specStatusKind (statusCode : Nat) (response : Option ResponseBody) : ErrKind :=
  if statusCode = 401 ∨ statusCode = 403 then .authentication
  else if statusCode = 404 then .notFound
  else if statusCode = 422 then .validation ((response.bind ResponseBody.errors).getD [])
  else if statusCode = 429 then .rateLimit
  else if 500 ≤ statusCode then .server
  else .generic

/-- C3: the classifier follows the fixed status table for every status
code and body, and on status 404 with a body whose single error has
detail x it builds a not-found error whose message is x; status 500 gives
the server kind and 429 the rate-limit kind. -/
theorem c3_status_classification :
    (∀ (s : Nat) (b : Option ResponseBody),
      (createErrorFromResponse s b).kind = specStatusKind s b) ∧
    (createErrorFromResponse 404
      (some { errors := some [{ detail := some "x" }] })).kind = ErrKind.notFound ∧
    (createErrorFromResponse 404
      (some { errors := some [{ detail := some "x" }] })).message = "x" ∧
    (createErrorFromResponse 500 none).kind = ErrKind.server ∧
    (createErrorFromResponse 429 none).kind = ErrKind.rateLimit := by
  refine ⟨?_, by decide, by decide, by decide, by decide⟩
  intro s b
  unfold createErrorFromResponse specStatusKind
  split_ifs <;> rfl

/-- The retry predicate wired by http.ts `requestWithRetry` (lines
182-184): retry exactly the rate-limit and server classes, via the
instanceof checks on the two leaf error classes. -/
def httpShouldRetry (e : ITGlueError) : Bool :=
  match e.kind with
  | .rateLimit => true
  | .server => true
  | _ => false

/-- Modelled from the spec: the retry engine of rate-limiter.ts is not
among the provided sources (only its tests and its caller in http.ts
are).  Per section 4.4 of the specification, `retryWithBackoff` executes
the attempt; on success it returns immediately; on failure it re-raises
immediately when shouldRetry rejects the error or the attempts already
made exceed maxRetries (so at most maxRetries + 1 attempts in total), and
otherwise retries after a backoff delay, which is not observable here and
not modelled.  The attempts are modelled as a function from the attempt
index to its outcome. -/
def retryAux {α : Type} (attempt : Nat → Except ITGlueError α)
    (shouldRetry : ITGlueError → Bool) : Nat → Nat → Except ITGlueError α
  | remaining, i =>
    match attempt i with
    | .ok v => .ok v
    | .error e =>
      match remaining with
      | 0 => .error e
      | r + 1 => if shouldRetry e then retryAux attempt shouldRetry r (i + 1) else .error e

/-- Modelled from the spec: the entry point of the retry engine; see
`retryAux`. -/
def retryWithBackoff {α : Type} (attempt : Nat → Except ITGlueError α)
    (maxRetries : Nat) (shouldRetry : ITGlueError → Bool) : Except ITGlueError α :=
  retryAux attempt shouldRetry maxRetries 0

/-- C7: the retry predicate wired by the request executor accepts an
error exactly when its kind is rate-limit or server; consequently an
error of any other kind (validation, not-found, authentication, network,
timeout, generic) fails the predicate and propagates to the caller on the
first occurrence, with no further attempts consulted. -/
theorem c7_retry_policy :
    (∀ e : ITGlueError, httpShouldRetry e = true ↔
      (e.kind = ErrKind.rateLimit ∨ e.kind = ErrKind.server)) ∧
    (∀ (attempt : Nat → Except ITGlueError Nat) (n : Nat) (e : ITGlueError),
      httpShouldRetry e = false → attempt 0 = .error e →
      retryWithBackoff attempt n httpShouldRetry = .error e) := by
  constructor
  · intro e
    obtain ⟨k, m, s⟩ := e
    cases k <;> simp [httpShouldRetry]
  · intro attempt n e h1 h2
    unfold retryWithBackoff retryAux
    rw [h2]
    cases n with
    | zero => rfl
    | succ r =>
      show (if httpShouldRetry e then retryAux attempt httpShouldRetry r 1
        else .error e) = .error e
      rw [h1]
      rfl

theorem c7_retry_policy_witness :
    httpShouldRetry (createErrorFromResponse 422 none) = false ∧
    @retryWithBackoff Nat (fun _ => .error (createErrorFromResponse 422 none)) 3
      httpShouldRetry = .error (createErrorFromResponse 422 none) :=
  ⟨rfl, c7_retry_policy.2 (fun _ => .error (createErrorFromResponse 422 none)) 3
    (createErrorFromResponse 422 none) rfl rfl⟩

/-- pagination.ts DEFAULT_PAGE_SIZE. -/
def DEFAULT_PAGE_SIZE : Nat := 50

/-- pagination.ts MAX_PAGE_SIZE. -/
def MAX_PAGE_SIZE : Nat := 1000

/-- The decoded pagination meta consumed by the pagination engine
(types/common.ts); a null wire value is none. -/
structure PaginationMeta where
  currentPage : Int := 1
  nextPage : Option Int := none
  prevPage : Option Int := none
  totalPages : Int := 1
  totalCount : Int := 0
deriving Repr, DecidableEq

/-- The page descriptor passed to the fetcher. -/
structure PaginationParams where
  number : Nat
  size : Nat
deriving Repr, DecidableEq

/-- One fetched page; the meta can be absent at run time, which the
iterator guards with optional chaining. -/
structure PaginatedResponse (α : Type) where
  data : List α
  meta : Option PaginationMeta := none

/-- pagination.ts PaginationOptions; absent fields are undefined. -/
structure PaginationOptions where
  startPage : Option Nat := none
  pageSize : Option Nat := none
  maxItems : Option Nat := none

/-- The resolved page size: `options.pageSize || DEFAULT_PAGE_SIZE`
clamped by MAX_PAGE_SIZE; a zero page size is falsy in JS and falls back
to the default. -/
def resolvedPageSize (o : PaginationOptions) : Nat :=
  min
    (match o.pageSize with
     | some p => if p = 0 then DEFAULT_PAGE_SIZE else p
     | none => DEFAULT_PAGE_SIZE)
    MAX_PAGE_SIZE

/-- The resolved start page: `options.startPage || 1`. -/
def resolvedStartPage (o : PaginationOptions) : Nat :=
  match o.startPage with
  | some p => if p = 0 then 1 else p
  | none => 1

/-- The optional-chained `meta?.nextPage !== null && !== undefined` check
that decides whether more pages exist. -/
def hasMoreOf (meta : Option PaginationMeta) : Bool :=
  match meta with
  | some m => m.nextPage.isSome
  | none => false

/-- The cursor state captured by the closure of
`createPaginatedIterator` (pagination.ts lines 52-57). -/
structure IterState (α : Type) where
  currentPage : Nat
  currentItems : List α
  currentIndex : Nat
  totalReturned : Nat
  hasMore : Bool
deriving Repr, DecidableEq

/-- The cursor state at iterator construction. -/
def initState {α : Type} (o : PaginationOptions) : IterState α :=
  { currentPage := resolvedStartPage o
    currentItems := []
    currentIndex := 0
    totalReturned := 0
    hasMore := true }

/-- The outcome of one `next()` call: the new cursor state, the yielded
item (none when the iterator reports done), and how many times the
fetcher was called during this step (0 or 1; the fetch loop body runs at
most once per call, since an empty page returns done and a nonempty page
ends the loop). -/
structure StepResult (α : Type) where
  state : IterState α
  value : Option α
  fetches : Nat
deriving Repr

/-- The `maxItems !== undefined && totalReturned >= maxItems` guard. -/
def maxItemsReached (maxItems : Option Nat) (totalReturned : Nat) : Bool :=
  match maxItems with
  | some m => decide (m ≤ totalReturned)
  | none => false

/-- The `next()` step of the item iterator of pagination.ts
`createPaginatedIterator` (lines 60-97): report done at the maxItems cap;
fetch the next page when the buffer is exhausted and more pages are
expected, reporting done on an empty page; report done when the buffer is
exhausted with no more pages; otherwise yield the next buffered item. -/
def iterNext {α : Type} (fetcher : PaginationParams → PaginatedResponse α)
    (pageSize : Nat) (maxItems : Option Nat) (s : IterState α) : StepResult α :=
  if maxItemsReached maxItems s.totalReturned then
    { state := s, value := none, fetches := 0 }
  else if decide (s.currentItems.length ≤ s.currentIndex) && s.hasMore then
    let response := fetcher { number := s.currentPage, size := pageSize }
    let s' : IterState α :=
      { currentPage := s.currentPage + 1
        currentItems := response.data
        currentIndex := 0
        totalReturned := s.totalReturned
        hasMore := hasMoreOf response.meta }
    match response.data with
    | [] => { state := s', value := none, fetches := 1 }
    | x :: _ =>
      { state := { s' with currentIndex := 1, totalReturned := s.totalReturned + 1 }
        value := some x
        fetches := 1 }
  else if decide (s.currentItems.length ≤ s.currentIndex) then
    { state := s, value := none, fetches := 0 }
  else
    { state := { s with currentIndex := s.currentIndex + 1
                        totalReturned := s.totalReturned + 1 }
      value := s.currentItems[s.currentIndex]?
      fetches := 0 }

/-- Driving the iterator to done, as `toArray` and for-await loops do:
collect yielded items until a `next()` reports done, counting fetcher
calls; none when the fuel runs out before the iteration terminates. -/
def drainAux {α : Type} (fetcher : PaginationParams → PaginatedResponse α)
    (pageSize : Nat) (maxItems : Option Nat) :
    Nat → IterState α → List α → Nat → Option (List α × IterState α × Nat)
  | 0, _, _, _ => none
  | fuel + 1, s, acc, fc =>
    let r := iterNext fetcher pageSize maxItems s
    match r.value with
    | none => some (acc, r.state, fc + r.fetches)
    | some x => drainAux fetcher pageSize maxItems fuel r.state (acc ++ [x]) (fc + r.fetches)

/-- pagination.ts `createPaginatedIterator(...).toArray()`: drain a fresh
iterator built from the options. -/
def toArray {α : Type} (fetcher : PaginationParams → PaginatedResponse α)
    (options : PaginationOptions) (fuel : Nat) :
    Option (List α × IterState α × Nat) :=
  drainAux fetcher (resolvedPageSize options) options.maxItems fuel
    (initState options) [] 0

/-- pagination.ts `take` (lines 188-197): the item iterator constructed
with maxItems overridden by the count, drained to an array. -/
def take {α : Type} (fetcher : PaginationParams → PaginatedResponse α)
    (count : Nat) (options : PaginationOptions) (fuel : Nat) :
    Option (List α × IterState α × Nat) :=
  toArray fetcher { options with maxItems := some count } fuel

/-- The two-page fetch stub of the termination property: page 1 holds two
items with nextPage 2, page 2 holds two items with nextPage null.  The
items are (page, position) pairs so the yield order is visible. -/
def c1Fetcher : PaginationParams → PaginatedResponse (Nat × Nat) :=
  fun p =>
    if p.number = 1 then
      { data := [(1, 1), (1, 2)]
        meta := some { currentPage := 1, nextPage := some 2, prevPage := none,
                       totalPages := 2, totalCount := 4 } }
    else
      { data := [(2, 1), (2, 2)]
        meta := some { currentPage := 2, nextPage := none, prevPage := some 1,
                       totalPages := 2, totalCount := 4 } }

/-- C1: draining the item iterator over the two-page stub yields exactly
the four items in page-then-position order, the iteration terminates, and
the fetcher is called exactly twice. -/
theorem c1_pagination_termination :
    (toArray c1Fetcher {} 10).map (fun r => (r.1, r.2.2)) =
      some ([(1, 1), (1, 2), (2, 1), (2, 2)], 2) := rfl

/-- The three-page, thirty-item fetch stub of the maxItems property. -/
def c9Fetcher : PaginationParams → PaginatedResponse Nat :=
  fun p =>
    if p.number = 1 then
      { data := [1, 2, 3, 4, 5, 6, 7, 8, 9, 10], meta := some { nextPage := some 2 } }
    else if p.number = 2 then
      { data := [11, 12, 13, 14, 15, 16, 17, 18, 19, 20],
        meta := some { nextPage := some 3 } }
    else
      { data := [21, 22, 23, 24, 25, 26, 27, 28, 29, 30], meta := none }

/-- C9: `take fetcher n options` is exactly the item iterator constructed
with maxItems set to n (and the other options unchanged), drained to an
array; and over a source that would return thirty items across pages,
taking three yields exactly the first three items with a single fetcher
call — no more pages are fetched than needed. -/
theorem c9_take_refinement :
    (∀ (α : Type) (fetcher : PaginationParams → PaginatedResponse α)
       (count : Nat) (options : PaginationOptions) (fuel : Nat),
      take fetcher count options fuel =
        toArray fetcher { options with maxItems := some count } fuel) ∧
    (take c9Fetcher 3 {} 10).map (fun r => (r.1, r.2.2)) = some ([1, 2, 3], 1) := by
  exact ⟨fun _ _ _ _ _ => rfl, rfl⟩

/-- The fetch stub of the C10 counterexample: the first page is empty but
announces a next page; the second page holds one item and is final. -/
def c10Fetcher : PaginationParams → PaginatedResponse Nat :=
  fun p =>
    if p.number = 1 then { data := [], meta := some { nextPage := some 2 } }
    else { data := [7], meta := none }

/-- C10 counterexample: the claim as stated says that once the shared
iterator has been fully drained, any further iteration of the same
iterable yields zero items and triggers no fetcher calls.  Against a
fetcher whose first page is empty with a non-null nextPage, the first
drain terminates (done after one fetch, zero items) but leaves the shared
cursor with hasMore still true; a second iteration of the same iterable
resumes from that cursor, fetches again, and yields an item. -/
theorem c10_counterexample :
    (toArray c10Fetcher {} 10).map (fun r => (r.1, r.2.2)) = some ([], 1) ∧
    (match toArray c10Fetcher {} 10 with
     | some (_, s, _) =>
       (drainAux c10Fetcher (resolvedPageSize {}) none 10 s [] 0).map
         (fun r => (r.1, r.2.2)) = some ([7], 1)
     | none => False) := by
  exact ⟨rfl, rfl⟩

/-- C10 (amended): the iterable hands out one shared, never-reset cursor,
so a done state reached through the maxItems cap, or with the buffer
exhausted and no further page expected, is absorbing: every later
`next()` on the same iterator returns done without touching the fetcher,
and draining from it yields no items and performs no fetches.  (Only a
final page that was empty while announcing a non-null nextPage escapes
this: there the cursor keeps hasMore and a later iteration resumes
fetching.) -/
theorem c10_drained_iterator_stability :
    ∀ (α : Type) (fetcher : PaginationParams → PaginatedResponse α)
      (pageSize : Nat) (maxItems : Option Nat) (s : IterState α),
      (maxItemsReached maxItems s.totalReturned = true ∨
        (s.currentItems.length ≤ s.currentIndex ∧ s.hasMore = false)) →
      iterNext fetcher pageSize maxItems s =
        { state := s, value := none, fetches := 0 } ∧
      ∀ fuel : Nat, drainAux fetcher pageSize maxItems (fuel + 1) s [] 0 =
        some ([], s, 0) := by
  intro α fetcher pageSize maxItems s h
  have hnext : iterNext fetcher pageSize maxItems s =
      { state := s, value := none, fetches := 0 } := by
    rcases h with h | ⟨h1, h2⟩
    · simp [iterNext, h]
    · cases hm : maxItemsReached maxItems s.totalReturned <;>
        simp [iterNext, hm, h1, h2]
  refine ⟨hnext, ?_⟩
  intro fuel
  simp [drainAux, hnext]

/-- A concrete absorbing cursor state: buffer of one item fully
consumed, no further page expected. -/
def c10Stable : IterState Nat :=
  { currentPage := 3, currentItems := [7], currentIndex := 1,
    totalReturned := 1, hasMore := false }

theorem c10_drained_iterator_stability_witness :
    iterNext c10Fetcher 50 none c10Stable =
      { state := c10Stable, value := none, fetches := 0 } ∧
    drainAux c10Fetcher 50 none 10 c10Stable [] 0 = some ([], c10Stable, 0) := by
  have h := c10_drained_iterator_stability Nat c10Fetcher 50 none c10Stable
    (Or.inr ⟨by decide, rfl⟩)
  exact ⟨h.1, h.2 9⟩
